import Mathlib

/-
Shallow embedding of the mood-tracker client (React pages: Dashboard,
AddMood, History, Statistics).  Pure computations are translated to Lean
functions; event handlers become pure functions from the component state
and the outcome of their network calls to the new state together with a
list of observable effects (requests issued, toasts shown, console logs,
navigation).  Timestamps are minutes since the Unix epoch (an `Int`);
`toISOString` date extraction is modelled as the UTC day index and
`toLocaleDateString` under a fixed-offset timezone as the local day index.
Toast/console message texts are abridged (punctuation such as apostrophes
dropped); only their identity matters to the properties proved here.
-/

/-- A Mood Entry as the client understands it: `id`, `mood`, optional
`note`, `detection_method`, and `timestamp` (minutes since the epoch). -/
structure MoodEntry where
  id : Nat
  mood : String
  note : String
  detection_method : String
  timestamp : Int
deriving DecidableEq

/-- Observable effects of the client handlers: HTTP requests issued,
toasts shown, console logging, file download, navigation. -/
inductive Effect where
  | toastSuccess (msg : String)
  | toastError (msg : String)
  | consoleError (msg : String)
  | getMoods
  | getStats
  | getExport (format : String)
  | postMood (mood note detection_method : String)
  | postDetect
  | deleteMood (id : Nat)
  | download (filename : String)
  | navigateHome
deriving DecidableEq

/-- Whether an effect is a user-facing transient notification (a toast). -/
def isToast : Effect → Bool
  | .toastSuccess _ => true
  | .toastError _ => true
  | _ => false

/- ===== Statistics page ===== -/

/-- One step of the reduce in `getMostCommonMood`:
`(max, curr) => curr[1] > max[1] ? curr : max`. -/
def moodStep (max curr : String × Nat) : String × Nat :=
  if curr.2 > max.2 then curr else max

/-- `getMostCommonMood` (Statistics page): over `Object.entries(mood_counts)`
(modelled as an association list in iteration order), `null` on an empty
mapping, otherwise the reduce with `moodStep`, returned only when its
count is positive. -/
def getMostCommonMood (mood_counts : List (String × Nat)) : Option (String × Nat) :=
  match mood_counts with
  | [] => none
  | e :: rest =>
    let best := rest.foldl moodStep e
    if best.2 > 0 then some best else none

/-- `fetchStats`: on success stores the response, on failure only logs to
the console (state stays `none`). -/
def fetchStats (result : Option (List (String × Nat))) :
    Option (List (String × Nat)) × List Effect :=
  match result with
  | some mc => (some mc, [Effect.getStats])
  | none => (none, [Effect.getStats, Effect.consoleError "Error fetching statistics"])

/- ===== Dashboard page ===== -/

/-- UTC day index of a timestamp: models `new Date(t).toISOString().split(T)[0]`
(the ISO date string is a faithful rendering of this index). -/
def isoDate (t : Int) : Int := t.fdiv 1440

/-- Local day index of a timestamp under a fixed timezone offset (in
minutes): models `new Date(t).toLocaleDateString(en-US, ...)`. -/
def localDate (tzOffset t : Int) : Int := (t + tzOffset).fdiv 1440

/-- The today-mood selection of `fetchTodayMood`: filter the list to the
entries whose UTC day equals the UTC day of `now`, and take the first one
(`todayMood` starts as `null` and is set only when the filter is nonempty). -/
def todaysMoodOf (now : Int) (moods : List MoodEntry) : Option MoodEntry :=
  (moods.filter fun m => isoDate m.timestamp == isoDate now).head?

/-- `fetchTodayMood`: on success applies the today filter; on failure only
logs to the console and leaves `todayMood` as `null`. -/
def fetchTodayMood (now : Int) (result : Option (List MoodEntry)) :
    Option MoodEntry × List Effect :=
  match result with
  | some moods => (todaysMoodOf now moods, [Effect.getMoods])
  | none => (none, [Effect.getMoods, Effect.consoleError "Error fetching today mood"])

/-- `fetchRecentMoods`: on success stores `response.data.slice(0, 5)`; on
failure only logs to the console (state stays `[]`). -/
def fetchRecentMoods (result : Option (List MoodEntry)) :
    List MoodEntry × List Effect :=
  match result with
  | some data => (data.take 5, [Effect.getMoods])
  | none => ([], [Effect.getMoods, Effect.consoleError "Error fetching recent moods"])

/-- The recent-moods card is rendered exactly when `recentMoods.length > 0`. -/
def recentMoodsShown (recent : List MoodEntry) : Bool := decide (0 < recent.length)

/- ===== History page ===== -/

/-- A grouping of mood entries keyed by date string, in key insertion
order (a JavaScript object with string keys preserves insertion order). -/
abbrev Grouping := List (String × List MoodEntry)

/-- One step of the reduce in `groupMoodsByDate`:
`if (!acc[date]) acc[date] = []; acc[date].push(mood)` — append the entry
to the bucket of key `d`, creating the bucket at the end if absent. -/
def pushEntry : Grouping → String → MoodEntry → Grouping
  | [], d, m => [(d, [m])]
  | kv :: rest, d, m =>
    if kv.1 = d then (kv.1, kv.2 ++ [m]) :: rest else kv :: pushEntry rest d m

/-- `groupMoodsByDate` (History page): reduce the entry list into buckets
keyed by the local date string of each timestamp.  The date-formatting
function (`toLocaleDateString` with en-US options) is passed as `dateKey`. -/
def groupMoodsByDate (dateKey : Int → String) (moodData : List MoodEntry) : Grouping :=
  moodData.foldl (fun acc m => pushEntry acc (dateKey m.timestamp) m) []

/-- Object property access `grouped[d]`: the bucket stored under key `d`. -/
def lookupGroup : Grouping → String → Option (List MoodEntry)
  | [], _ => none
  | kv :: rest, d => if kv.1 = d then some kv.2 else lookupGroup rest d

/-- The bucket the spec demands for key `d`: all entries of the input with
that date, in input order, absent when there are none. -/
def bucketSpec (dateKey : Int → String) (l : List MoodEntry) (d : String) :
    Option (List MoodEntry) :=
  if l.filter (fun m => dateKey m.timestamp == d) = [] then none
  else some (l.filter (fun m => dateKey m.timestamp == d))

/-- `fetchMoods` (History page): on success stores the list and its
grouping; on failure only logs to the console and leaves the state. -/
def fetchMoods (dateKey : Int → String) (current : List MoodEntry × Grouping)
    (result : Option (List MoodEntry)) : (List MoodEntry × Grouping) × List Effect :=
  match result with
  | some data => ((data, groupMoodsByDate dateKey data), [Effect.getMoods])
  | none => (current, [Effect.getMoods, Effect.consoleError "Error fetching moods"])

/-- The backend handling of `DELETE /api/moods/{id}` as the spec presumes:
the entry with that identifier is removed. -/
def backendDelete (backend : List MoodEntry) (moodId : Nat) : List MoodEntry :=
  backend.filter fun m => m.id != moodId

/-- `handleDelete` (History page): confirmation guard, DELETE request,
success toast, then a refetch of the list (which regroups).  On delete
failure the list is untouched and an error toast shows; a failed refetch
leaves the previous list. -/
def handleDelete (dateKey : Int → String) (current : List MoodEntry × Grouping)
    (backend : List MoodEntry) (moodId : Nat)
    (confirmed deleteOk refetchOk : Bool) : (List MoodEntry × Grouping) × List Effect :=
  if confirmed = false then (current, [])
  else if deleteOk = false then
    (current, [Effect.deleteMood moodId, Effect.consoleError "Error deleting mood",
               Effect.toastError "Failed to delete mood entry"])
  else
    let fm := fetchMoods dateKey current
      (if refetchOk then some (backendDelete backend moodId) else none)
    (fm.1, [Effect.deleteMood moodId, Effect.toastSuccess "Mood entry deleted"] ++ fm.2)

/-- `handleExport` (History page): GET the export in the requested format
and download it as `mood_export_<date>.<format>`; on failure log and show
an error toast. -/
def handleExport (format : String) (ok : Bool) (today : String) : List Effect :=
  if ok then
    [Effect.getExport format,
     Effect.download ("mood_export_" ++ today ++ "." ++ format),
     Effect.toastSuccess ("Exported as " ++ format.toUpper)]
  else
    [Effect.getExport format, Effect.consoleError "Error exporting data",
     Effect.toastError "Failed to export data"]

/-- The formats wired to the two export buttons of the History page. -/
def exportButtonFormats : List String := ["csv", "json"]

/- ===== AddMood page ===== -/

/-- The five selectable moods (`MOODS` constant, names only). -/
def MOODS : List String := ["happy", "sad", "angry", "anxious", "neutral"]

/-- Component state of the AddMood page (confidence is carried as a
rounded percentage; only its presence matters here). -/
structure AddMoodState where
  method : String
  selectedMood : String
  note : String
  loading : Bool
  showCamera : Bool
  detectedEmotion : Option (String × Nat)
deriving DecidableEq

/-- The initial state of the AddMood page. -/
def initialAddMoodState : AddMoodState :=
  { method := "manual", selectedMood := "", note := "", loading := false,
    showCamera := false, detectedEmotion := none }

/-- `handleManualSubmit`: reject an empty selection with an error toast
and no request; otherwise POST the mood with `detection_method` manual,
toasting success (and navigating home) or failure. -/
def handleManualSubmit (s : AddMoodState) (postOk : Bool) : AddMoodState × List Effect :=
  if s.selectedMood = "" then
    (s, [Effect.toastError "Please select a mood"])
  else if postOk then
    ({ s with loading := false },
     [Effect.postMood s.selectedMood s.note "manual",
      Effect.toastSuccess "Mood tracked successfully", Effect.navigateHome])
  else
    ({ s with loading := false },
     [Effect.postMood s.selectedMood s.note "manual",
      Effect.consoleError "Error saving mood", Effect.toastError "Failed to save mood"])

/-- `handleCameraSubmit`: reject an empty selection with an error toast
and no request; otherwise POST the mood with `detection_method` camera. -/
def handleCameraSubmit (s : AddMoodState) (postOk : Bool) : AddMoodState × List Effect :=
  if s.selectedMood = "" then
    (s, [Effect.toastError "Please detect emotion first"])
  else if postOk then
    ({ s with loading := false },
     [Effect.postMood s.selectedMood s.note "camera",
      Effect.toastSuccess "Mood tracked successfully", Effect.navigateHome])
  else
    ({ s with loading := false },
     [Effect.postMood s.selectedMood s.note "camera",
      Effect.consoleError "Error saving mood", Effect.toastError "Failed to save mood"])

/-- `captureAndDetect`: webcam-readiness and screenshot guards, then a
POST to the detect endpoint; on success the detected emotion is stored
as the selected mood (unvalidated) and the method switches to camera. -/
def captureAndDetect (s : AddMoodState) (cameraReady screenshotOk : Bool)
    (detectResult : Option (String × Nat)) : AddMoodState × List Effect :=
  if cameraReady = false then
    (s, [Effect.toastError "Camera not ready"])
  else if screenshotOk = false then
    ({ s with loading := false }, [Effect.toastError "Failed to capture image"])
  else
    match detectResult with
    | some (emotion, confidence) =>
      ({ s with detectedEmotion := some (emotion, confidence),
                selectedMood := emotion, method := "camera",
                showCamera := false, loading := false },
       [Effect.postDetect, Effect.toastSuccess ("Detected " ++ emotion)])
    | none =>
      ({ s with loading := false },
       [Effect.postDetect, Effect.consoleError "Error detecting emotion",
        Effect.toastError "Failed to detect emotion"])

/-- The user interactions the AddMood page offers, with the outcome of any
network call they make carried as data.  `selectMood` indexes the five
rendered mood buttons. -/
inductive UserEvent where
  | selectMood (i : Fin 5)
  | setNote (t : String)
  | clickManualMethod
  | clickCameraMethod
  | clickRetake
  | capture (cameraReady screenshotOk : Bool) (detectResult : Option (String × Nat))
  | submitManual (postOk : Bool)
  | submitCamera (postOk : Bool)
deriving DecidableEq

/-- The state transition and effects of one user interaction, from the
onClick handlers of the AddMood page. -/
def stepEvent (s : AddMoodState) : UserEvent → AddMoodState × List Effect
  | .selectMood i => ({ s with selectedMood := MOODS.getD i.val "" }, [])
  | .setNote t => ({ s with note := t }, [])
  | .clickManualMethod =>
    ({ s with method := "manual", showCamera := false, detectedEmotion := none }, [])
  | .clickCameraMethod =>
    ({ s with method := "camera", showCamera := true, selectedMood := "" }, [])
  | .clickRetake =>
    ({ s with showCamera := true, detectedEmotion := none, selectedMood := "" }, [])
  | .capture r ok res => captureAndDetect s r ok res
  | .submitManual ok => handleManualSubmit s ok
  | .submitCamera ok => handleCameraSubmit s ok

/-- Run a sequence of user interactions, accumulating the effects. -/
def runEvents (s : AddMoodState) : List UserEvent → AddMoodState × List Effect
  | [] => (s, [])
  | e :: evs =>
    let se := stepEvent s e
    let rest := runEvents se.1 evs
    (rest.1, se.2 ++ rest.2)

/-- The emotions returned by successful detect calls in a sequence of
interactions. -/
def detectEmotions : List UserEvent → List String
  | [] => []
  | .capture _ _ (some (em, _)) :: evs => em :: detectEmotions evs
  | _ :: evs => detectEmotions evs

/-- Interaction sequence exhibiting an unvalidated camera mood: the detect
endpoint answers with an emotion outside the enumeration. -/
def c5events : List UserEvent :=
  [.clickCameraMethod, .capture true true (some ("surprised", 90)), .submitCamera true]

/-- Interaction sequence exhibiting a provenance mismatch: detect a mood
by camera, switch to the manual method (which keeps the selection), then
submit through the manual path. -/
def c6events : List UserEvent :=
  [.clickCameraMethod, .capture true true (some ("happy", 90)),
   .clickManualMethod, .submitManual true]

/-- Concrete entry for the today-filter counterexample: 23:59 UTC on epoch
day 0, which in a UTC+2 timezone already belongs to epoch day 1. -/
def lateEveningEntry : MoodEntry :=
  { id := 1, mood := "happy", note := "", detection_method := "manual", timestamp := 1439 }

/- ===== C1: most common mood ===== -/

/-- Helper lemma for `getMostCommonMood`: the reduce keeps the first entry
whose count equals the running maximum.  Either the accumulator survives
and bounds every list element, or the result splits the list with the
accumulator and every earlier element strictly below it. -/
theorem moodFoldl_spec (l : List (String × Nat)) : ∀ e : String × Nat,
    (l.foldl moodStep e = e ∧ ∀ p ∈ l, p.2 ≤ e.2) ∨
    (∃ pre post, l = pre ++ (l.foldl moodStep e) :: post ∧
      e.2 < (l.foldl moodStep e).2 ∧
      (∀ p ∈ pre, p.2 < (l.foldl moodStep e).2) ∧
      (∀ p ∈ post, p.2 ≤ (l.foldl moodStep e).2)) := by
  induction l with
  | nil => intro e; exact Or.inl ⟨rfl, by simp⟩
  | cons r l ih =>
    intro e
    by_cases hr : r.2 > e.2
    · have hstep : moodStep e r = r := by simp [moodStep, hr]
      have hfold : (r :: l).foldl moodStep e = l.foldl moodStep r := by
        simp [List.foldl, hstep]
      rcases ih r with ⟨hb, hall⟩ | ⟨pre, post, hsplit, hgt, hpre, hpost⟩
      · refine Or.inr ⟨[], l, ?_, ?_, ?_, ?_⟩
        · simp [hfold, hb]
        · rw [hfold, hb]; exact hr
        · simp
        · intro p hp; rw [hfold, hb]; exact hall p hp
      · refine Or.inr ⟨r :: pre, post, ?_, ?_, ?_, ?_⟩
        · rw [hfold]; exact congrArg (List.cons r) hsplit
        · rw [hfold]; exact lt_trans hr hgt
        · intro p hp
          rcases List.mem_cons.mp hp with hpr | hpp
          · subst hpr; rw [hfold]; exact hgt
          · rw [hfold]; exact hpre p hpp
        · intro p hp; rw [hfold]; exact hpost p hp
    · push_neg at hr
      have hstep : moodStep e r = e := by
        simp only [moodStep, gt_iff_lt, if_neg (not_lt.mpr hr)]
      have hfold : (r :: l).foldl moodStep e = l.foldl moodStep e := by
        simp [List.foldl, hstep]
      rcases ih e with ⟨hb, hall⟩ | ⟨pre, post, hsplit, hgt, hpre, hpost⟩
      · refine Or.inl ⟨by rw [hfold, hb], ?_⟩
        intro p hp
        rcases List.mem_cons.mp hp with hpr | hpp
        · subst hpr; exact hr
        · exact hall p hpp
      · refine Or.inr ⟨r :: pre, post, ?_, ?_, ?_, ?_⟩
        · rw [hfold]; exact congrArg (List.cons r) hsplit
        · rw [hfold]; exact hgt
        · intro p hp
          rcases List.mem_cons.mp hp with hpr | hpp
          · subst hpr; rw [hfold]; exact lt_of_le_of_lt hr hgt
          · rw [hfold]; exact hpre p hpp
        · intro p hp; rw [hfold]; exact hpost p hp

/-- C1: the most-common-mood computation yields no result exactly when the
count mapping is empty or every count is zero; otherwise it yields the
pair whose count is maximum over the mapping, ties between equal maxima
resolved in favour of the first entry in iteration order (every entry
strictly before the result has a strictly smaller count). -/
theorem getMostCommonMood_spec (l : List (String × Nat)) :
    (getMostCommonMood l = none ↔ l = [] ∨ ∀ p ∈ l, p.2 = 0) ∧
    (∀ mc, getMostCommonMood l = some mc →
      mc ∈ l ∧ (∀ p ∈ l, p.2 ≤ mc.2) ∧
      ∃ pre post, l = pre ++ mc :: post ∧ ∀ p ∈ pre, p.2 < mc.2) := by
  match l with
  | [] => exact ⟨by simp [getMostCommonMood], by intro mc h; simp [getMostCommonMood] at h⟩
  | e :: rest =>
    have hspec := moodFoldl_spec rest e
    have hmax : ∀ p ∈ e :: rest, p.2 ≤ (rest.foldl moodStep e).2 := by
      rcases hspec with ⟨hb, hall⟩ | ⟨pre, post, hsplit, hgt, hpre, hpost⟩
      · intro p hp
        rcases List.mem_cons.mp hp with hpe | hpr
        · subst hpe; rw [hb]
        · rw [hb]; exact hall p hpr
      · intro p hp
        rcases List.mem_cons.mp hp with hpe | hpr
        · subst hpe; exact le_of_lt hgt
        · rw [hsplit] at hpr
          rcases List.mem_append.mp hpr with hl | hr
          · exact le_of_lt (hpre p hl)
          · rcases List.mem_cons.mp hr with hpb | hpp
            · subst hpb; exact le_refl _
            · exact hpost p hpp
    have hmem : rest.foldl moodStep e ∈ e :: rest := by
      rcases hspec with ⟨hb, _⟩ | ⟨pre, post, hsplit, _, _, _⟩
      · rw [hb]; exact List.mem_cons_self e rest
      · have hmm : rest.foldl moodStep e ∈ pre ++ (rest.foldl moodStep e) :: post := by simp
        rw [← hsplit] at hmm
        exact List.mem_cons_of_mem e hmm
    have hsplitfull : ∃ pre post, e :: rest = pre ++ (rest.foldl moodStep e) :: post ∧
        ∀ p ∈ pre, p.2 < (rest.foldl moodStep e).2 := by
      rcases hspec with ⟨hb, _⟩ | ⟨pre, post, hsplit, hgt, hpre, _⟩
      · exact ⟨[], rest, by simp [hb], by simp⟩
      · refine ⟨e :: pre, post, congrArg (List.cons e) hsplit, ?_⟩
        intro p hp
        rcases List.mem_cons.mp hp with hpe | hpp
        · subst hpe; exact hgt
        · exact hpre p hpp
    have hunfold : getMostCommonMood (e :: rest) =
        if (rest.foldl moodStep e).2 > 0 then some (rest.foldl moodStep e) else none := rfl
    constructor
    · rw [hunfold]
      by_cases hpos : (rest.foldl moodStep e).2 > 0
      · rw [if_pos hpos]
        constructor
        · intro h; exact absurd h (by simp)
        · intro hz
          rcases hz with hz | hz
          · exact absurd hz (by simp)
          · exact absurd hpos (by simp [hz _ hmem])
      · rw [if_neg hpos]
        constructor
        · intro _
          right
          intro p hp
          have hple := hmax p hp
          omega
        · intro _; rfl
    · rw [hunfold]
      intro mc hmc
      by_cases hpos : (rest.foldl moodStep e).2 > 0
      · rw [if_pos hpos] at hmc
        have hbm : rest.foldl moodStep e = mc := by injection hmc
        exact hbm ▸ ⟨hmem, hmax, hsplitfull⟩
      · rw [if_neg hpos] at hmc; exact absurd hmc (by simp)

/- ===== C2: grouping by date is a partition ===== -/

/-- Looking up after a push: the pushed key's bucket gains the entry at
its end (an empty bucket being created first), every other key is
untouched. -/
theorem lookup_pushEntry (g : Grouping) : ∀ (d : String) (m : MoodEntry) (d2 : String),
    lookupGroup (pushEntry g d m) d2 =
      if d2 = d then some ((lookupGroup g d2).getD [] ++ [m]) else lookupGroup g d2 := by
  induction g with
  | nil =>
    intro d m d2
    by_cases h : d2 = d
    · subst h; simp [pushEntry, lookupGroup]
    · simp [pushEntry, lookupGroup, h, Ne.symm h]
  | cons kv rest ih =>
    intro d m d2
    by_cases h1 : kv.1 = d
    · by_cases h2 : d2 = d
      · subst h2
        simp [pushEntry, lookupGroup, h1]
      · simp [pushEntry, lookupGroup, h1, h2, Ne.symm h2]
    · by_cases h2 : kv.1 = d2
      · have hd2 : d2 ≠ d := fun hh => h1 (hh ▸ h2)
        simp [pushEntry, lookupGroup, h1, h2, hd2]
      · simp [pushEntry, lookupGroup, h1, h2, ih d m d2]

/-- Folding the grouping step over a list extends each bucket by exactly
the matching entries of the list, in order; a key with no bucket and no
matching entry stays absent. -/
theorem lookup_foldlGroup (dateKey : Int → String) (l : List MoodEntry) :
    ∀ (g : Grouping) (d : String),
    (∀ b, lookupGroup g d = some b →
      lookupGroup (l.foldl (fun acc m => pushEntry acc (dateKey m.timestamp) m) g) d
        = some (b ++ l.filter (fun m => dateKey m.timestamp == d))) ∧
    (lookupGroup g d = none →
      lookupGroup (l.foldl (fun acc m => pushEntry acc (dateKey m.timestamp) m) g) d
        = bucketSpec dateKey l d) := by
  induction l with
  | nil =>
    intro g d
    constructor
    · intro b hb; simpa using hb
    · intro hnone; simpa [bucketSpec] using hnone
  | cons m l ih =>
    intro g d
    have hstep : (m :: l).foldl (fun acc x => pushEntry acc (dateKey x.timestamp) x) g
        = l.foldl (fun acc x => pushEntry acc (dateKey x.timestamp) x)
            (pushEntry g (dateKey m.timestamp) m) := rfl
    by_cases hd : dateKey m.timestamp = d
    · have hfilter : (m :: l).filter (fun x => dateKey x.timestamp == d)
          = m :: l.filter (fun x => dateKey x.timestamp == d) := by
        simp [List.filter_cons, beq_iff_eq, hd]
      constructor
      · intro b hb
        have hpush : lookupGroup (pushEntry g (dateKey m.timestamp) m) d = some (b ++ [m]) := by
          rw [lookup_pushEntry g (dateKey m.timestamp) m d, if_pos hd.symm, hb]
          rfl
        rw [hstep, (ih (pushEntry g (dateKey m.timestamp) m) d).1 (b ++ [m]) hpush, hfilter]
        simp
      · intro hnone
        have hpush : lookupGroup (pushEntry g (dateKey m.timestamp) m) d = some [m] := by
          rw [lookup_pushEntry g (dateKey m.timestamp) m d, if_pos hd.symm, hnone]
          rfl
        rw [hstep, (ih (pushEntry g (dateKey m.timestamp) m) d).1 [m] hpush]
        simp [bucketSpec, hfilter]
    · have hfilter : (m :: l).filter (fun x => dateKey x.timestamp == d)
          = l.filter (fun x => dateKey x.timestamp == d) := by
        simp [List.filter_cons, beq_iff_eq, hd]
      have hpush : lookupGroup (pushEntry g (dateKey m.timestamp) m) d = lookupGroup g d := by
        rw [lookup_pushEntry g (dateKey m.timestamp) m d,
          if_neg (fun hh => hd (Eq.symm hh))]
      constructor
      · intro b hb
        rw [hstep, (ih (pushEntry g (dateKey m.timestamp) m) d).1 b (hpush.trans hb), hfilter]
      · intro hnone
        rw [hstep, (ih (pushEntry g (dateKey m.timestamp) m) d).2 (hpush.trans hnone)]
        simp [bucketSpec, hfilter]

/-- A push adds at most the pushed key to the key set. -/
theorem mem_keys_pushEntry (g : Grouping) : ∀ (d : String) (m : MoodEntry) (x : String),
    x ∈ (pushEntry g d m).map Prod.fst ↔ x ∈ g.map Prod.fst ∨ x = d := by
  induction g with
  | nil => intro d m x; simp [pushEntry]
  | cons kv rest ih =>
    intro d m x
    by_cases h1 : kv.1 = d
    · subst h1; simp [pushEntry]
      intro h; exact Or.inl h
    · simp [pushEntry, h1, ih d m x, or_assoc]

/-- A push keeps the keys of a grouping pairwise distinct. -/
theorem nodup_keys_pushEntry (g : Grouping) : ∀ (d : String) (m : MoodEntry),
    (g.map Prod.fst).Nodup → ((pushEntry g d m).map Prod.fst).Nodup := by
  induction g with
  | nil => intro d m _; simp [pushEntry]
  | cons kv rest ih =>
    intro d m hnd
    rw [List.map_cons, List.nodup_cons] at hnd
    by_cases h1 : kv.1 = d
    · subst h1
      have hpe : pushEntry (kv :: rest) kv.1 m = (kv.1, kv.2 ++ [m]) :: rest := by
        simp [pushEntry]
      rw [hpe, List.map_cons, List.nodup_cons]
      exact hnd
    · have hpe : pushEntry (kv :: rest) d m = kv :: pushEntry rest d m := by
        simp [pushEntry, h1]
      rw [hpe, List.map_cons, List.nodup_cons]
      refine ⟨?_, ih d m hnd.2⟩
      intro hmem
      rcases (mem_keys_pushEntry rest d m kv.1).mp hmem with hin | heq
      · exact hnd.1 hin
      · exact h1 heq

/-- The grouping built by `groupMoodsByDate` always has pairwise distinct
keys. -/
theorem nodup_keys_group (dateKey : Int → String) (l : List MoodEntry) :
    ((groupMoodsByDate dateKey l).map Prod.fst).Nodup := by
  have haux : ∀ (ll : List MoodEntry) (g : Grouping), (g.map Prod.fst).Nodup →
      ((ll.foldl (fun acc m => pushEntry acc (dateKey m.timestamp) m) g).map Prod.fst).Nodup := by
    intro ll
    induction ll with
    | nil => intro g hg; exact hg
    | cons m ll ih =>
      intro g hg
      exact ih _ (nodup_keys_pushEntry g (dateKey m.timestamp) m hg)
  exact haux l [] (by simp)

/-- In a grouping with pairwise distinct keys, a stored pair is what its
key looks up to. -/
theorem lookup_of_mem_nodup (g : Grouping) : ∀ db ∈ g,
    (g.map Prod.fst).Nodup → lookupGroup g db.1 = some db.2 := by
  induction g with
  | nil => intro db hdb; exact absurd hdb (by simp)
  | cons kv rest ih =>
    intro db hdb hnd
    rw [List.map_cons, List.nodup_cons] at hnd
    rcases List.mem_cons.mp hdb with heq | hmem
    · subst heq; simp [lookupGroup]
    · have hne : kv.1 ≠ db.1 := by
        intro hh
        exact hnd.1 (hh ▸ List.mem_map_of_mem Prod.fst hmem)
      simp only [lookupGroup, if_neg hne]
      exact ih db hmem hnd.2

/-- C2: grouping by date is a partition of the entry list.  The empty
list yields the empty grouping; the bucket looked up under any date `d`
is exactly the sublist of input entries whose timestamp formats to `d`
(in input order), and is absent exactly when there are none; keys are
pairwise distinct, so an entry is in exactly one bucket, the one keyed by
its own date; and every stored bucket is a nonempty sublist of the input
consisting precisely of the entries bearing its key. -/
theorem groupMoodsByDate_partition (dateKey : Int → String) (l : List MoodEntry) :
    groupMoodsByDate dateKey [] = [] ∧
    (∀ d, lookupGroup (groupMoodsByDate dateKey l) d = bucketSpec dateKey l d) ∧
    ((groupMoodsByDate dateKey l).map Prod.fst).Nodup ∧
    (∀ db ∈ groupMoodsByDate dateKey l,
      db.2 = l.filter (fun m => dateKey m.timestamp == db.1) ∧ db.2 ≠ []) := by
  have hlookup : ∀ d, lookupGroup (groupMoodsByDate dateKey l) d = bucketSpec dateKey l d := by
    intro d
    exact (lookup_foldlGroup dateKey l [] d).2 rfl
  refine ⟨rfl, hlookup, nodup_keys_group dateKey l, ?_⟩
  intro db hdb
  have hsome : lookupGroup (groupMoodsByDate dateKey l) db.1 = some db.2 :=
    lookup_of_mem_nodup (groupMoodsByDate dateKey l) db hdb (nodup_keys_group dateKey l)
  have hb : bucketSpec dateKey l db.1 = some db.2 := by rw [← hlookup db.1]; exact hsome
  by_cases hf : l.filter (fun m => dateKey m.timestamp == db.1) = []
  · rw [bucketSpec, if_pos hf] at hb; exact absurd hb (by simp)
  · rw [bucketSpec, if_neg hf] at hb
    have : l.filter (fun m => dateKey m.timestamp == db.1) = db.2 := by injection hb
    exact ⟨this.symm, this ▸ hf⟩

/- ===== C3: empty manual submission is rejected locally ===== -/

/-- C3: with no mood selected, the manual submit shows an error toast and
returns: the state is unchanged and no effect is a POST of a mood (in
particular no network request is issued). -/
theorem handleManualSubmit_noSelection (s : AddMoodState) (postOk : Bool)
    (h : s.selectedMood = "") :
    handleManualSubmit s postOk = (s, [Effect.toastError "Please select a mood"]) ∧
    ∀ e ∈ (handleManualSubmit s postOk).2, ∀ mood note dm, e ≠ Effect.postMood mood note dm := by
  have heq : handleManualSubmit s postOk = (s, [Effect.toastError "Please select a mood"]) := by
    simp [handleManualSubmit, h]
  refine ⟨heq, ?_⟩
  rw [heq]
  intro e he mood note dm
  have he2 : e = Effect.toastError "Please select a mood" := by simpa using he
  subst he2
  simp

/-- Witness for C3 at the initial state. -/
theorem handleManualSubmit_noSelection_witness :
    handleManualSubmit initialAddMoodState true
      = (initialAddMoodState, [Effect.toastError "Please select a mood"]) :=
  (handleManualSubmit_noSelection initialAddMoodState true rfl).1

/- ===== C4: failures caught, but fetch failures show no toast ===== -/

/-- C4 counterexample: the failure of the statistics fetch (and likewise
the dashboard and history fetches) is caught and logged to the console,
but no effect of it is a toast, contradicting the claim that every
network failure is surfaced as a user-facing notification. -/
theorem fetchFailure_noToast_cex :
    (fetchStats none).2 = [Effect.getStats, Effect.consoleError "Error fetching statistics"] ∧
    (fetchStats none).2.all (fun e => !isToast e) = true ∧
    (fetchTodayMood 0 none).2.all (fun e => !isToast e) = true ∧
    (fetchRecentMoods none).2.all (fun e => !isToast e) = true ∧
    (fetchMoods (fun _ => "") ([], []) none).2.all (fun e => !isToast e) = true := by
  exact ⟨rfl, rfl, rfl, rfl, rfl⟩

/-- C4 amended: every failure is caught at its call site; the mutation
and detection operations surface an error toast, while the pure fetches
of the dashboard, statistics and history pages only log to the console
and show no toast; no handler reissues its request. -/
theorem errorHandling_amended (now : Int) (dateKey : Int → String)
    (cur : List MoodEntry × Grouping) (s : AddMoodState)
    (backend : List MoodEntry) (moodId : Nat) (f today : String) :
    (fetchTodayMood now none).2
      = [Effect.getMoods, Effect.consoleError "Error fetching today mood"] ∧
    (fetchRecentMoods none).2
      = [Effect.getMoods, Effect.consoleError "Error fetching recent moods"] ∧
    (fetchStats none).2
      = [Effect.getStats, Effect.consoleError "Error fetching statistics"] ∧
    (fetchMoods dateKey cur none).2
      = [Effect.getMoods, Effect.consoleError "Error fetching moods"] ∧
    ((fetchTodayMood now none).2.all fun e => !isToast e) = true ∧
    ((fetchRecentMoods none).2.all fun e => !isToast e) = true ∧
    ((fetchStats none).2.all fun e => !isToast e) = true ∧
    ((fetchMoods dateKey cur none).2.all fun e => !isToast e) = true ∧
    (s.selectedMood ≠ "" →
      Effect.toastError "Failed to save mood" ∈ (handleManualSubmit s false).2) ∧
    (s.selectedMood ≠ "" →
      Effect.toastError "Failed to save mood" ∈ (handleCameraSubmit s false).2) ∧
    (Effect.toastError "Failed to detect emotion" ∈ (captureAndDetect s true true none).2) ∧
    (Effect.toastError "Failed to delete mood entry"
      ∈ (handleDelete dateKey cur backend moodId true false true).2) ∧
    (Effect.toastError "Failed to export data" ∈ handleExport f false today) := by
  refine ⟨rfl, rfl, rfl, rfl, rfl, rfl, rfl, rfl, ?_, ?_, ?_, ?_, ?_⟩
  · intro hs; simp [handleManualSubmit, hs]
  · intro hs; simp [handleCameraSubmit, hs]
  · simp [captureAndDetect]
  · simp [handleDelete]
  · simp [handleExport]

/- ===== C7: export format and file extension ===== -/

/-- C7: the export buttons request exactly the formats csv and json; for
a requested format the GET carries that format and the downloaded file
name ends in a dot followed by that same format. -/
theorem handleExport_formats (f : String) (hf : f ∈ exportButtonFormats)
    (ok : Bool) (today : String) :
    exportButtonFormats = ["csv", "json"] ∧
    (∀ g, Effect.getExport g ∈ handleExport f ok today → g = f) ∧
    (ok = true →
      Effect.download ("mood_export_" ++ today ++ "." ++ f) ∈ handleExport f ok today) ∧
    (∀ name, Effect.download name ∈ handleExport f ok today →
      name = "mood_export_" ++ today ++ "." ++ f) := by
  refine ⟨rfl, ?_, ?_, ?_⟩
  · intro g hg
    cases ok <;> simpa [handleExport] using hg
  · intro hok; subst hok; simp [handleExport]
  · intro name hname
    cases ok
    · simp [handleExport] at hname
    · simpa [handleExport] using hname

/-- Witness for C7 at the csv button. -/
theorem handleExport_formats_witness :
    "csv" ∈ exportButtonFormats ∧
    Effect.download ("mood_export_" ++ "2026-01-01" ++ "." ++ "csv")
      ∈ handleExport "csv" true "2026-01-01" :=
  ⟨by decide, (handleExport_formats "csv" (by decide) true "2026-01-01").2.2.1 rfl⟩

/- ===== C8: successful deletion removes the identifier ===== -/

/-- C8: after a confirmed deletion whose DELETE and refetch both succeed,
no entry of the resulting mood list bears the deleted identifier. -/
theorem handleDelete_removes (dateKey : Int → String) (cur : List MoodEntry × Grouping)
    (backend : List MoodEntry) (moodId : Nat) (m : MoodEntry)
    (hm : m ∈ (handleDelete dateKey cur backend moodId true true true).1.1) :
    m.id ≠ moodId := by
  have hmb : m ∈ backendDelete backend moodId := by
    simpa [handleDelete, fetchMoods] using hm
  have hfl := List.of_mem_filter hmb
  simpa using hfl

/-- Witness for C8: deleting identifier 2 from a backend holding only the
entry with identifier 1 leaves that entry, whose identifier differs. -/
theorem handleDelete_removes_witness :
    lateEveningEntry ∈
      (handleDelete (fun _ => "") ([], []) [lateEveningEntry] 2 true true true).1.1 ∧
    lateEveningEntry.id ≠ 2 :=
  ⟨by decide,
   handleDelete_removes (fun _ => "") ([], []) [lateEveningEntry] 2 lateEveningEntry (by decide)⟩

/- ===== C10: recent moods are the first five ===== -/

/-- C10: the recent-moods state is exactly the first five entries of the
fetched list in list order (all of them when fewer than five), and the
recent-moods card is rendered exactly when that prefix is nonempty. -/
theorem fetchRecentMoods_spec (data : List MoodEntry) :
    (fetchRecentMoods (some data)).1 = data.take 5 ∧
    (∃ rest, data = (fetchRecentMoods (some data)).1 ++ rest ∧
      ((fetchRecentMoods (some data)).1.length = 5 ∨ rest = [])) ∧
    (recentMoodsShown (fetchRecentMoods (some data)).1 = true ↔ data ≠ []) := by
  refine ⟨rfl, ⟨data.drop 5, ?_, ?_⟩, ?_⟩
  · exact (List.take_append_drop 5 data).symm
  · rcases le_or_lt 5 data.length with h | h
    · left
      show (data.take 5).length = 5
      rw [List.length_take]
      omega
    · right
      exact List.drop_eq_nil_of_le (by omega)
  · show decide (0 < (data.take 5).length) = true ↔ data ≠ []
    rw [decide_eq_true_eq, List.length_take, ← List.length_pos]
    omega

/- ===== C5: posted moods and the enumeration ===== -/

/-- Each of the five rendered mood buttons selects a mood of `MOODS`. -/
theorem MOODS_getD_mem (i : Fin 5) : MOODS.getD i.val "" ∈ MOODS := by
  fin_cases i <;> decide

/-- The capture-and-detect handler never POSTs a mood itself. -/
theorem captureAndDetect_no_post (s : AddMoodState) (r ok : Bool)
    (res : Option (String × Nat)) (mood note dm : String) :
    Effect.postMood mood note dm ∉ (captureAndDetect s r ok res).2 := by
  cases r <;> cases ok <;> rcases res with _ | ⟨em, c⟩ <;> simp [captureAndDetect]

/-- A mood POSTed by the manual submit is the currently selected mood,
which is then nonempty. -/
theorem handleManualSubmit_post_mood (s : AddMoodState) (ok : Bool) (mood note dm : String)
    (h : Effect.postMood mood note dm ∈ (handleManualSubmit s ok).2) :
    mood = s.selectedMood ∧ s.selectedMood ≠ "" := by
  by_cases hsm : s.selectedMood = ""
  · simp [handleManualSubmit, hsm] at h
  · cases ok <;> simp [handleManualSubmit, hsm] at h <;> exact ⟨h.1, hsm⟩

/-- A mood POSTed by the camera submit is the currently selected mood,
which is then nonempty. -/
theorem handleCameraSubmit_post_mood (s : AddMoodState) (ok : Bool) (mood note dm : String)
    (h : Effect.postMood mood note dm ∈ (handleCameraSubmit s ok).2) :
    mood = s.selectedMood ∧ s.selectedMood ≠ "" := by
  by_cases hsm : s.selectedMood = ""
  · simp [handleCameraSubmit, hsm] at h
  · cases ok <;> simp [handleCameraSubmit, hsm] at h <;> exact ⟨h.1, hsm⟩

/-- Invariant of the interaction semantics: starting from a state whose
selection is empty or drawn from `A`, every POSTed mood comes from `A`,
from the five buttons, or from a detect response of the run. -/
theorem runEvents_postMood_sources (evs : List UserEvent) : ∀ (s : AddMoodState) (A : List String),
    s.selectedMood ∈ ("" :: (A ++ MOODS)) →
    ∀ mood note dm, Effect.postMood mood note dm ∈ (runEvents s evs).2 →
      mood ∈ A ++ (MOODS ++ detectEmotions evs) := by
  induction evs with
  | nil =>
    intro s A hs mood note dm h
    simp [runEvents] at h
  | cons e evs ih =>
    intro s A hs mood note dm h
    have hsplit2 : (runEvents s (e :: evs)).2
        = (stepEvent s e).2 ++ (runEvents (stepEvent s e).1 evs).2 := rfl
    rw [hsplit2] at h
    cases e with
    | selectMood i =>
      have hde : detectEmotions (UserEvent.selectMood i :: evs) = detectEmotions evs := rfl
      rcases List.mem_append.mp h with h1 | h2
      · exact absurd h1 (by simp [stepEvent])
      · have hs2 : (stepEvent s (UserEvent.selectMood i)).1.selectedMood
            ∈ ("" :: (A ++ MOODS)) :=
          List.mem_cons_of_mem _ (List.mem_append_right A (MOODS_getD_mem i))
        rw [hde]
        exact ih _ A hs2 mood note dm h2
    | setNote t =>
      have hde : detectEmotions (UserEvent.setNote t :: evs) = detectEmotions evs := rfl
      rcases List.mem_append.mp h with h1 | h2
      · exact absurd h1 (by simp [stepEvent])
      · rw [hde]
        exact ih (stepEvent s (UserEvent.setNote t)).1 A hs mood note dm h2
    | clickManualMethod =>
      have hde : detectEmotions (UserEvent.clickManualMethod :: evs) = detectEmotions evs := rfl
      rcases List.mem_append.mp h with h1 | h2
      · exact absurd h1 (by simp [stepEvent])
      · rw [hde]
        exact ih (stepEvent s UserEvent.clickManualMethod).1 A hs mood note dm h2
    | clickCameraMethod =>
      have hde : detectEmotions (UserEvent.clickCameraMethod :: evs) = detectEmotions evs := rfl
      rcases List.mem_append.mp h with h1 | h2
      · exact absurd h1 (by simp [stepEvent])
      · rw [hde]
        exact ih _ A (List.mem_cons_self "" (A ++ MOODS)) mood note dm h2
    | clickRetake =>
      have hde : detectEmotions (UserEvent.clickRetake :: evs) = detectEmotions evs := rfl
      rcases List.mem_append.mp h with h1 | h2
      · exact absurd h1 (by simp [stepEvent])
      · rw [hde]
        exact ih _ A (List.mem_cons_self "" (A ++ MOODS)) mood note dm h2
    | capture r ok res =>
      rcases List.mem_append.mp h with h1 | h2
      · exact absurd h1 (captureAndDetect_no_post s r ok res mood note dm)
      · match res with
        | none =>
          have hde : detectEmotions (UserEvent.capture r ok none :: evs)
              = detectEmotions evs := rfl
          have hsm : (stepEvent s (UserEvent.capture r ok none)).1.selectedMood
              = s.selectedMood := by
            cases r <;> cases ok <;> rfl
          rw [hde]
          exact ih _ A (by rw [hsm]; exact hs) mood note dm h2
        | some (em, c) =>
          have hde : detectEmotions (UserEvent.capture r ok (some (em, c)) :: evs)
              = em :: detectEmotions evs := rfl
          have hmonoA : ∀ x, x ∈ ("" :: (A ++ MOODS)) → x ∈ ("" :: ((em :: A) ++ MOODS)) := by
            intro x hx
            simp only [List.mem_cons, List.mem_append] at hx ⊢
            tauto
          have hs2 : (stepEvent s (UserEvent.capture r ok (some (em, c)))).1.selectedMood
              ∈ ("" :: ((em :: A) ++ MOODS)) := by
            cases r
            · exact hmonoA _ hs
            · cases ok
              · exact hmonoA _ hs
              · exact List.mem_cons_of_mem _ (List.mem_append_left MOODS (List.mem_cons_self em A))
          have hconc := ih _ (em :: A) hs2 mood note dm h2
          rw [hde]
          simp only [List.mem_cons, List.mem_append] at hconc ⊢
          tauto
    | submitManual ok =>
      have hde : detectEmotions (UserEvent.submitManual ok :: evs) = detectEmotions evs := rfl
      rcases List.mem_append.mp h with h1 | h2
      · obtain ⟨hmood, hne⟩ := handleManualSubmit_post_mood s ok mood note dm h1
        rw [hde]
        rcases List.mem_cons.mp hs with h0 | hAM
        · exact absurd h0 hne
        · subst hmood
          rcases List.mem_append.mp hAM with hA | hM
          · exact List.mem_append_left _ hA
          · exact List.mem_append_right _ (List.mem_append_left _ hM)
      · have hsm : (stepEvent s (UserEvent.submitManual ok)).1.selectedMood
            = s.selectedMood := by
          by_cases hsel : s.selectedMood = "" <;> cases ok <;>
            simp [stepEvent, handleManualSubmit, hsel]
        rw [hde]
        exact ih _ A (by rw [hsm]; exact hs) mood note dm h2
    | submitCamera ok =>
      have hde : detectEmotions (UserEvent.submitCamera ok :: evs) = detectEmotions evs := rfl
      rcases List.mem_append.mp h with h1 | h2
      · obtain ⟨hmood, hne⟩ := handleCameraSubmit_post_mood s ok mood note dm h1
        rw [hde]
        rcases List.mem_cons.mp hs with h0 | hAM
        · exact absurd h0 hne
        · subst hmood
          rcases List.mem_append.mp hAM with hA | hM
          · exact List.mem_append_left _ hA
          · exact List.mem_append_right _ (List.mem_append_left _ hM)
      · have hsm : (stepEvent s (UserEvent.submitCamera ok)).1.selectedMood
            = s.selectedMood := by
          by_cases hsel : s.selectedMood = "" <;> cases ok <;>
            simp [stepEvent, handleCameraSubmit, hsel]
        rw [hde]
        exact ih _ A (by rw [hsm]; exact hs) mood note dm h2

/-- C5 counterexample: when the detect endpoint answers with an emotion
outside the enumeration, the client POSTs that very value as the mood. -/
theorem cameraPost_unvalidated_cex :
    Effect.postMood "surprised" "" "camera" ∈ (runEvents initialAddMoodState c5events).2 ∧
    "surprised" ∉ MOODS := by
  exact ⟨by decide, by decide⟩

/-- C5 amended: every mood the client POSTs over any interaction sequence
was either selected from the five mood buttons (so lies in the
enumeration) or is exactly an emotion string returned by a detect
response; the camera path performs no validation of its own, so the
enumeration invariant holds only when the detect responses respect it. -/
theorem addMoodPost_source (evs : List UserEvent) (mood note dm : String)
    (h : Effect.postMood mood note dm ∈ (runEvents initialAddMoodState evs).2) :
    mood ∈ MOODS ∨ mood ∈ detectEmotions evs := by
  have hsrc := runEvents_postMood_sources evs initialAddMoodState []
    (List.mem_cons_self "" ([] ++ MOODS)) mood note dm h
  simpa using hsrc

/-- Witness for C5 amended: a manually selected happy mood is POSTed and
lies in the enumeration. -/
theorem addMoodPost_source_witness :
    Effect.postMood "happy" "" "manual" ∈
      (runEvents initialAddMoodState [UserEvent.selectMood 0, UserEvent.submitManual true]).2 ∧
    ("happy" ∈ MOODS ∨
      "happy" ∈ detectEmotions [UserEvent.selectMood 0, UserEvent.submitManual true]) :=
  ⟨by decide, addMoodPost_source [UserEvent.selectMood 0, UserEvent.submitManual true]
    "happy" "" "manual" (by decide)⟩

/- ===== C6: detection_method and provenance ===== -/

/-- C6 counterexample: after a camera detection and a switch to the
manual method (which keeps the detected selection), the manual submit
POSTs the camera-produced mood with detection_method manual, although the
sequence contains no manual mood selection at all. -/
theorem methodStamp_mismatch_cex :
    Effect.postMood "happy" "" "manual" ∈ (runEvents initialAddMoodState c6events).2 ∧
    (∀ e ∈ c6events, ∀ i : Fin 5, e ≠ UserEvent.selectMood i) ∧
    detectEmotions c6events = ["happy"] := by
  exact ⟨by decide, by decide, by decide⟩

/-- C6 amended: each submit path stamps its own method (manual submits
always record manual, camera submits always record camera); switching to
the camera method clears the selected mood, but switching to the manual
method keeps it, so a camera-detected mood can be submitted with
detection_method manual. -/
theorem methodStamp_amended (s : AddMoodState) (ok : Bool) :
    (∀ mood note dm, Effect.postMood mood note dm ∈ (handleManualSubmit s ok).2 →
      dm = "manual") ∧
    (∀ mood note dm, Effect.postMood mood note dm ∈ (handleCameraSubmit s ok).2 →
      dm = "camera") ∧
    (stepEvent s UserEvent.clickCameraMethod).1.selectedMood = "" ∧
    (stepEvent s UserEvent.clickManualMethod).1.selectedMood = s.selectedMood := by
  refine ⟨?_, ?_, rfl, rfl⟩
  · intro mood note dm h
    by_cases hsm : s.selectedMood = ""
    · simp [handleManualSubmit, hsm] at h
    · cases ok <;> simp [handleManualSubmit, hsm] at h <;> exact h.2.2
  · intro mood note dm h
    by_cases hsm : s.selectedMood = ""
    · simp [handleCameraSubmit, hsm] at h
    · cases ok <;> simp [handleCameraSubmit, hsm] at h <;> exact h.2.2

/- ===== C9: the today filter uses the UTC date, not the local date ===== -/

/-- C9 counterexample: at 23:59 UTC of epoch day 0 in a UTC+2 timezone,
the entry lies on the same local calendar day as the instant 00:00 UTC of
day 1, yet the dashboard displays no today mood, because the filter
compares ISO (UTC) dates and those differ. -/
theorem todayFilter_utc_cex :
    todaysMoodOf 1440 [lateEveningEntry] = none ∧
    localDate 120 lateEveningEntry.timestamp = localDate 120 1440 ∧
    isoDate lateEveningEntry.timestamp ≠ isoDate 1440 := by
  exact ⟨by decide, by decide, by decide⟩

/-- First-match characterisation of the head of a filtered entry list. -/
theorem headFilter_spec (p : MoodEntry → Bool) (ms : List MoodEntry) :
    ((ms.filter p).head? = none ↔ ∀ m ∈ ms, p m = false) ∧
    (∀ m, (ms.filter p).head? = some m →
      m ∈ ms ∧ p m = true ∧ ∃ pre post, ms = pre ++ m :: post ∧ ∀ x ∈ pre, p x = false) := by
  induction ms with
  | nil => exact ⟨by simp, by intro m h; simp at h⟩
  | cons a l ih =>
    by_cases ha : p a
    · have hf : (a :: l).filter p = a :: l.filter p := by simp [List.filter_cons, ha]
      constructor
      · rw [hf]
        constructor
        · intro h; exact absurd h (by simp)
        · intro h; exact absurd (h a (List.mem_cons_self a l)) (by simp [ha])
      · intro m hm
        rw [hf] at hm
        have hma : a = m := by simpa using hm
        subst hma
        exact ⟨List.mem_cons_self a l, ha, [], l, rfl, by simp⟩
    · have ha2 : p a = false := by simpa using ha
      have hf : (a :: l).filter p = l.filter p := by simp [List.filter_cons, ha2]
      constructor
      · rw [hf, ih.1]
        constructor
        · intro h m hm
          rcases List.mem_cons.mp hm with hma | hml
          · subst hma; exact ha2
          · exact h m hml
        · intro h m hm
          exact h m (List.mem_cons_of_mem a hm)
      · intro m hm
        rw [hf] at hm
        obtain ⟨hmem, hp, pre, post, hsplit3, hpre⟩ := ih.2 m hm
        refine ⟨List.mem_cons_of_mem a hmem, hp, a :: pre, post,
          congrArg (List.cons a) hsplit3, ?_⟩
        intro x hx
        rcases List.mem_cons.mp hx with hxa | hxp
        · subst hxa; exact ha2
        · exact hpre x hxp

/-- C9 amended: the dashboard displays a today mood exactly when some
entry of the fetched list shares the UTC calendar date (the ISO date) of
the current instant — not the local calendar date used for grouping — and
when it does, the entry displayed is the first such entry in list order. -/
theorem todaysMoodOf_spec (now : Int) (ms : List MoodEntry) :
    (fetchTodayMood now (some ms)).1 = todaysMoodOf now ms ∧
    (todaysMoodOf now ms = none ↔ ∀ m ∈ ms, isoDate m.timestamp ≠ isoDate now) ∧
    (∀ m, todaysMoodOf now ms = some m →
      m ∈ ms ∧ isoDate m.timestamp = isoDate now ∧
      ∃ pre post, ms = pre ++ m :: post ∧ ∀ x ∈ pre, isoDate x.timestamp ≠ isoDate now) := by
  have h := headFilter_spec (fun m => isoDate m.timestamp == isoDate now) ms
  refine ⟨rfl, ?_, ?_⟩
  · constructor
    · intro hn m hm
      have hfalse := h.1.mp hn m hm
      simpa using hfalse
    · intro hne
      apply h.1.mpr
      intro m hm
      simpa using hne m hm
  · intro m hm
    obtain ⟨hmem, hp, pre, post, hsplit4, hpre⟩ := h.2 m hm
    refine ⟨hmem, by simpa using hp, pre, post, hsplit4, ?_⟩
    intro x hx
    simpa using hpre x hx
